import Mathlib

/-!
Shallow embedding of the settings loader of `src/api/settings.py`
(`_AbstractSettings.load`, `_AbstractSettings._convert_to_time`,
`PreparationSettings`).

Config documents and keyword parameters are modelled as association lists
with Python-dict semantics: lookup returns the first binding, assignment
replaces the first binding in place (keeping its position) or appends a
fresh binding at the end, exactly as a Python `dict` behaves (a parsed
YAML mapping or a `**params` dict never holds a duplicate key, so on the
inputs the program actually sees the two agree; where a proof needs key
uniqueness it carries it as an explicit hypothesis).

YAML scalar values are modelled by the inductive `Value`; the pandas
time constructors (`Period`, `Timestamp`, `Timedelta`, `DateOffset`)
are modelled as the uninterpreted constructor `Value.vTime` tagging the
wrapped raw value, since `_convert_to_time` only ever applies the
declared type's constructor to the stored value.
-/

namespace Dtmsdg

/-- The four pandas time-like types of `_TIME_TYPES` in `settings.py`. -/
inductive TimeType where
  | period
  | timestamp
  | timedelta
  | dateOffset
deriving DecidableEq, Repr

/-- A YAML / Python value as the loader sees it: `None`, a boolean, a
string, a number, or the result of applying one of the pandas time
constructors to a previously stored value. -/
inductive Value where
  | vNull
  | vBool (b : Bool)
  | vStr (s : String)
  | vInt (n : Int)
  | vTime (t : TimeType) (arg : Value)
deriving DecidableEq, Repr

/-- First-binding lookup, the semantics of `d[k]` / `k in d` on a Python
dict rendered as its insertion-ordered item list. -/
def lookupV : List (String × Value) → String → Option Value
  | [], _ => none
  | p :: rest, k => if p.1 = k then some p.2 else lookupV rest k

/-- In-place assignment `d[k] = v` on the item list: replace the first
binding of `k` keeping its position, or append a fresh binding. -/
def setVal : List (String × Value) → String → Value → List (String × Value)
  | [], k, v => [(k, v)]
  | p :: rest, k, v => if p.1 = k then (k, v) :: rest else p :: setVal rest k v

/-- A Python dict: a key-value mapping with insertion order. -/
structure Dict where
  entries : List (String × Value)
deriving DecidableEq, Repr

/-- `d[k]` (as an option). -/
def Dict.get (d : Dict) (k : String) : Option Value :=
  lookupV d.entries k

/-- `k in d`. -/
def Dict.hasKey (d : Dict) (k : String) : Bool :=
  (d.get k).isSome

/-- `d[k] = v`. -/
def Dict.insert (d : Dict) (k : String) (v : Value) : Dict :=
  ⟨setVal d.entries k v⟩

/-- `d.update(c)`: assign every binding of `c` into `d`, in order. -/
def Dict.update (d c : Dict) : Dict :=
  c.entries.foldl (fun acc p => acc.insert p.1 p.2) d

/-- The keys of a dict, in order. -/
def Dict.keys (d : Dict) : List String :=
  d.entries.map Prod.fst

/-- The declared type of a settings field: a time-like type (member of
`_TIME_TYPES`) or any other annotation (`str`, `float`, `Path`, ...). -/
inductive FieldType where
  | plain
  | time (t : TimeType)
deriving DecidableEq, Repr

/-- A settings class: whether it is decorated as a (frozen) dataclass,
and its annotations in declaration order, as `get_type_hints` yields
them. -/
structure Schema where
  isDataclass : Bool
  frozen : Bool
  fieldHints : List (String × FieldType)
deriving DecidableEq, Repr

/-- `set(get_type_hints(cls).keys())`, kept as the ordered list of
annotation names. -/
def Schema.fieldNames (s : Schema) : List String :=
  s.fieldHints.map Prod.fst

/-- `get_type_hints(cls)[f]` for the first annotation named `f`. -/
def fieldTypeOf (s : Schema) (f : String) : Option FieldType :=
  (s.fieldHints.find? (fun p => p.1 = f)).map Prod.snd

/-- Line 82 of `settings.py`: keep only the keys that are schema
fields. -/
def filterContent (fields : List String) (content : Dict) : Dict :=
  ⟨content.entries.filter (fun p => decide (p.1 ∈ fields))⟩

/-- `PreparationSettings` of `settings.py`: a frozen dataclass with five
plain-typed fields. -/
def PreparationSettings : Schema :=
  { isDataclass := true
    frozen := true
    fieldHints :=
      [("target", FieldType.plain), ("test_size", FieldType.plain),
       ("in_path", FieldType.plain), ("out_train", FieldType.plain),
       ("out_test", FieldType.plain)] }

/-- How `load` can fail: `NotDataClassError`, a propagated I/O or parse
error on a config file, or `MissingParamError`. -/
inductive LoadError where
  | notDataClass
  | ioError
  | missingParam
deriving DecidableEq, Repr

/-- Lines 75-90 of `settings.py`: fold the config files, in order, into
the accumulator.  Each file is `some content` (it opened and parsed) or
`none` (opening or parsing raised, which propagates).  Each parsed
content is intersected with the schema's field set; if the accumulator
already holds any of the remaining keys a warning is logged (counted
here) and the accumulator is updated (last write wins). -/
def mergeFiles (fields : List String) :
    List (Option Dict) → Dict → Nat → Except Unit Dict × Nat
  | [], acc, w => (Except.ok acc, w)
  | none :: _, _, w => (Except.error (), w)
  | some content :: rest, acc, w =>
    mergeFiles fields rest (acc.update (filterContent fields content))
      (if acc.entries.any (fun p => (filterContent fields content).hasKey p.1)
        then w + 1 else w)

/-- Line 92 of `settings.py`: the override parameters whose value is not
`None` (these are the overrides that are applied; note there is no
filtering against the schema's field set here). -/
def nonNullParams (params : Dict) : Dict :=
  ⟨params.entries.filter (fun p => p.2 ≠ Value.vNull)⟩

/-- One annotation's step of the loop of `_convert_to_time`: when the
declared type is time-like and the field is present with a non-`None`
value, replace the value by the declared constructor applied to it. -/
def coerceStep (acc : Dict) (p : String × FieldType) : Dict :=
  match p.2 with
  | FieldType.plain => acc
  | FieldType.time t =>
    match acc.get p.1 with
    | none => acc
    | some Value.vNull => acc
    | some v => acc.insert p.1 (Value.vTime t v)

/-- Lines 105-124 of `settings.py`, `_convert_to_time`: for every
annotation whose declared type is time-like and whose field is present
in the settings with a non-`None` value, replace the value by the
declared constructor applied to it.  Fields not present are left
absent; `None` values are left untouched. -/
def convertToTime (schema : Schema) (settings : Dict) : Dict :=
  schema.fieldHints.foldl coerceStep settings

/-- `cls(**settings)` on a dataclass with no field defaults succeeds
exactly when the supplied keys are the field names: a missing field and
an unexpected keyword both raise `TypeError`.  (Python dataclasses do
not check value types at construction.) -/
def constructOk (fields : List String) (settings : Dict) : Bool :=
  fields.all (fun f => settings.hasKey f) &&
  settings.entries.all (fun p => decide (p.1 ∈ fields))

/-- The accumulator right before `_convert_to_time`: files merged in
order (lines 75-90), then the non-`None` overrides applied unfiltered
(line 92).  The warning count is carried along. -/
def mergedOf (schema : Schema) (files : List (Option Dict)) (params : Dict) :
    Except Unit Dict × Nat :=
  match mergeFiles schema.fieldNames files ⟨[]⟩ 0 with
  | (Except.error e, w) => (Except.error e, w)
  | (Except.ok m, w) => (Except.ok (m.update (nonNullParams params)), w)

/-- Lines 44-103 of `settings.py`, `_AbstractSettings.load`: check the
class is a dataclass (before any file I/O), merge the files and
overrides, coerce time-like fields, and construct the instance, turning
a construction `TypeError` into `MissingParamError`.  Returns the
outcome together with the number of duplicate-parameter warnings
logged. -/
def load (schema : Schema) (files : List (Option Dict)) (params : Dict) :
    Except LoadError Dict × Nat :=
  if schema.isDataclass = true then
    match mergedOf schema files params with
    | (Except.error _, w) => (Except.error LoadError.ioError, w)
    | (Except.ok m, w) =>
      if constructOk schema.fieldNames (convertToTime schema m) = true then
        (Except.ok (convertToTime schema m), w)
      else (Except.error LoadError.missingParam, w)
  else (Except.error LoadError.notDataClass, 0)

/-- The per-field effect of `_convert_to_time` on whatever value a field
ends up holding: values of time-like fields other than `None` get the
declared constructor applied; everything else is untouched. -/
def coerceValue (ft : FieldType) (v : Value) : Value :=
  match ft with
  | FieldType.plain => v
  | FieldType.time t => if v = Value.vNull then v else Value.vTime t v

/-- The value a loaded instance holds for field `f`: `some (inst[f])`
when `load` succeeds, `none` when it fails. -/
def loadField (schema : Schema) (files : List (Option Dict)) (params : Dict)
    (f : String) : Option (Option Value) :=
  ((load schema files params).1.toOption).map (fun inst => inst.get f)

/-- A settings class with a single `pandas.Timestamp` annotation
(`start: Timestamp`), decorated as a frozen dataclass. -/
def tsSchema : Schema :=
  ⟨true, true, [("start", FieldType.time TimeType.timestamp)]⟩

def fileA : Dict := ⟨[("start", Value.vStr "1999-01-01")]⟩

def fileB : Dict := ⟨[("start", Value.vStr "2000-06-30")]⟩

def ovStart : Dict := ⟨[("start", Value.vStr "2024-01-01")]⟩

def nullFile : Dict := ⟨[("start", Value.vNull)]⟩

def emptyParams : Dict := ⟨[]⟩

/-- A config file supplying all five `PreparationSettings` fields. -/
def prepFullFile : Dict :=
  ⟨[("target", Value.vStr "t0"), ("test_size", Value.vInt 0),
    ("in_path", Value.vStr "raw"), ("out_train", Value.vStr "tr"),
    ("out_test", Value.vStr "te")]⟩

def prepOv : Dict := ⟨[("target", Value.vStr "quality")]⟩

/-- The instance `load` builds from `prepFullFile` with `prepOv`. -/
def prepInst : Dict :=
  ⟨[("target", Value.vStr "quality"), ("test_size", Value.vInt 0),
    ("in_path", Value.vStr "raw"), ("out_train", Value.vStr "tr"),
    ("out_test", Value.vStr "te")]⟩

/-- A config file that does not supply the required `target` field and
carries a key outside the schema. -/
def prepFileNoTarget : Dict :=
  ⟨[("test_size", Value.vInt 1), ("junk", Value.vStr "x")]⟩

/-- A config file supplying all five `PreparationSettings` fields plus
the unknown key `junk`. -/
def junkFile : Dict :=
  ⟨[("target", Value.vStr "quality"), ("test_size", Value.vInt 0),
    ("junk", Value.vStr "x"), ("in_path", Value.vStr "raw"),
    ("out_train", Value.vStr "tr"), ("out_test", Value.vStr "te")]⟩

def prepOvPaths : Dict :=
  ⟨[("in_path", Value.vStr "raw"), ("out_train", Value.vStr "tr"),
    ("out_test", Value.vStr "te")]⟩

/-- A second full config file, differing from `prepFullFile` in
`target`. -/
def prepFullFile2 : Dict :=
  ⟨[("target", Value.vStr "t2"), ("test_size", Value.vInt 0),
    ("in_path", Value.vStr "raw"), ("out_train", Value.vStr "tr"),
    ("out_test", Value.vStr "te")]⟩

/-- The instance `load` builds from `prepFullFile` then `prepFullFile2`
with no overrides. -/
def prepInst2 : Dict :=
  ⟨[("target", Value.vStr "t2"), ("test_size", Value.vInt 0),
    ("in_path", Value.vStr "raw"), ("out_train", Value.vStr "tr"),
    ("out_test", Value.vStr "te")]⟩

/-- The merged mapping for `fileA` alone, before time coercion. -/
def mergedA : Dict := ⟨[("start", Value.vStr "1999-01-01")]⟩

/-- The merged mapping for `nullFile` alone. -/
def mergedNull : Dict := ⟨[("start", Value.vNull)]⟩

/-- The instance `load` builds from `fileA` alone. -/
def instA : Dict :=
  ⟨[("start", Value.vTime TimeType.timestamp (Value.vStr "1999-01-01"))]⟩

/-- Overrides with a key that is not a `PreparationSettings` field. -/
def boardOv : Dict := ⟨[("board_id", Value.vStr "b1")]⟩

/-- A settings class that is not decorated as a dataclass. -/
def badSchema : Schema := ⟨false, false, [("x", FieldType.plain)]⟩

def dupFile1 : Dict := ⟨[("test_size", Value.vStr "0.2")]⟩

def dupFile2 : Dict := ⟨[("test_size", Value.vStr "0.3")]⟩

/-! ### Basic facts about the dict model -/

theorem lookupV_eq_none_iff (l : List (String × Value)) (k : String) :
    lookupV l k = none ↔ ∀ p ∈ l, p.1 ≠ k := by
  induction l with
  | nil => simp [lookupV]
  | cons p rest ih =>
    by_cases h : p.1 = k <;> simp [lookupV, h, ih]

theorem lookupV_isSome_iff (l : List (String × Value)) (k : String) :
    (lookupV l k).isSome = true ↔ ∃ v, (k, v) ∈ l := by
  induction l with
  | nil => simp [lookupV]
  | cons p rest ih =>
    by_cases h : p.1 = k
    · cases p with
      | mk a b => subst h; simp [lookupV]
    · simp only [lookupV, if_neg h, ih, List.mem_cons]
      constructor
      · rintro ⟨v, hv⟩
        exact ⟨v, Or.inr hv⟩
      · rintro ⟨v, hv | hv⟩
        · exact absurd (congrArg Prod.fst hv).symm h
        · exact ⟨v, hv⟩

theorem lookupV_setVal (l : List (String × Value)) (k : String) (v : Value)
    (k' : String) :
    lookupV (setVal l k v) k' = if k' = k then some v else lookupV l k' := by
  induction l with
  | nil =>
    by_cases h : k' = k
    · subst h; simp [setVal, lookupV]
    · simp [setVal, lookupV, h, Ne.symm h]
  | cons p rest ih =>
    by_cases hp : p.1 = k
    · by_cases h : k' = k
      · subst h; simp [setVal, lookupV, hp]
      · have hpk : p.1 ≠ k' := by rw [hp]; exact Ne.symm h
        simp [setVal, lookupV, hp, h, Ne.symm h, hpk]
    · by_cases h : p.1 = k'
      · have hk : k' ≠ k := fun he => hp (h.trans he)
        simp [setVal, lookupV, hp, h, hk]
      · simp [setVal, lookupV, hp, h, ih]

theorem keys_setVal_of_isSome (l : List (String × Value)) (k : String) (v : Value)
    (h : (lookupV l k).isSome = true) :
    (setVal l k v).map Prod.fst = l.map Prod.fst := by
  induction l with
  | nil => simp [lookupV] at h
  | cons p rest ih =>
    by_cases hp : p.1 = k
    · simp [setVal, hp]
    · simp [lookupV, hp] at h
      simp [setVal, hp, ih h]

theorem Dict.get_insert (d : Dict) (k : String) (v : Value) (k' : String) :
    (d.insert k v).get k' = if k' = k then some v else d.get k' :=
  lookupV_setVal d.entries k v k'

theorem Dict.get_eq_none_iff (d : Dict) (k : String) :
    d.get k = none ↔ k ∉ d.keys := by
  rw [Dict.get, lookupV_eq_none_iff, Dict.keys]
  simp only [List.mem_map]
  constructor
  · rintro h ⟨p, hp, rfl⟩
    exact h p hp rfl
  · rintro h p hp rfl
    exact h ⟨p, hp, rfl⟩

theorem Dict.hasKey_iff_mem_keys (d : Dict) (k : String) :
    d.hasKey k = true ↔ k ∈ d.keys := by
  rw [Dict.hasKey, Option.isSome_iff_ne_none]
  rw [ne_eq, Dict.get_eq_none_iff]
  exact not_not

theorem Dict.keys_insert_of_hasKey (d : Dict) (k : String) (v : Value)
    (h : d.hasKey k = true) :
    (d.insert k v).keys = d.keys :=
  keys_setVal_of_isSome d.entries k v h

theorem get_foldl_insert_of_forall_ne (l : List (String × Value)) (d : Dict)
    (k : String) (h : ∀ p ∈ l, p.1 ≠ k) :
    (l.foldl (fun acc p => acc.insert p.1 p.2) d).get k = d.get k := by
  induction l generalizing d with
  | nil => rfl
  | cons p rest ih =>
    rw [List.foldl_cons, ih (d.insert p.1 p.2) (fun q hq => h q (List.mem_cons_of_mem p hq))]
    rw [Dict.get_insert]
    have hpk : ¬ k = p.1 := fun he => h p (List.mem_cons_self p rest) he.symm
    simp [hpk]

theorem get_foldl_insert_of_nodup (l : List (String × Value)) (d : Dict)
    (k : String) (v : Value) (hnd : (l.map Prod.fst).Nodup)
    (hget : lookupV l k = some v) :
    (l.foldl (fun acc p => acc.insert p.1 p.2) d).get k = some v := by
  induction l generalizing d with
  | nil => simp [lookupV] at hget
  | cons p rest ih =>
    simp only [List.map_cons, List.nodup_cons] at hnd
    by_cases hp : p.1 = k
    · rw [lookupV, if_pos hp] at hget
      rw [List.foldl_cons]
      have hrest : ∀ q ∈ rest, q.1 ≠ k := by
        intro q hq he
        exact hnd.1 (hp ▸ he ▸ List.mem_map_of_mem Prod.fst hq)
      rw [get_foldl_insert_of_forall_ne rest _ k hrest, Dict.get_insert]
      simp [hp, hget]
    · rw [lookupV, if_neg hp] at hget
      rw [List.foldl_cons]
      exact ih (d.insert p.1 p.2) hnd.2 hget

theorem hasKey_foldl_insert (l : List (String × Value)) (d : Dict) (k : String) :
    ((l.foldl (fun acc p => acc.insert p.1 p.2) d).hasKey k)
      = (d.hasKey k || (lookupV l k).isSome) := by
  induction l generalizing d with
  | nil => simp [lookupV]
  | cons p rest ih =>
    rw [List.foldl_cons, ih]
    by_cases hp : p.1 = k
    · simp [Dict.hasKey, Dict.get_insert, lookupV, hp]
    · have hk : ¬ k = p.1 := fun he => hp he.symm
      simp [Dict.hasKey, Dict.get_insert, lookupV, hp, hk]

theorem Dict.get_update_of_forall_ne (d c : Dict) (k : String)
    (h : ∀ p ∈ c.entries, p.1 ≠ k) :
    (d.update c).get k = d.get k :=
  get_foldl_insert_of_forall_ne c.entries d k h

theorem Dict.get_update_of_nodup (d c : Dict) (k : String) (v : Value)
    (hnd : c.keys.Nodup) (hget : c.get k = some v) :
    (d.update c).get k = some v :=
  get_foldl_insert_of_nodup c.entries d k v hnd hget

theorem Dict.hasKey_update (d c : Dict) (k : String) :
    (d.update c).hasKey k = (d.hasKey k || c.hasKey k) :=
  hasKey_foldl_insert c.entries d k

/-! ### Facts about the schema-field intersection (line 82) -/

theorem lookupV_filter_of_mem (l : List (String × Value)) (fields : List String)
    (k : String) (hk : k ∈ fields) :
    lookupV (l.filter (fun p => decide (p.1 ∈ fields))) k = lookupV l k := by
  induction l with
  | nil => rfl
  | cons p rest ih =>
    by_cases hp : p.1 = k
    · have hmem : p.1 ∈ fields := by rw [hp]; exact hk
      simp [List.filter_cons, hmem, lookupV, hp, hk]
    · by_cases hmem : p.1 ∈ fields <;> simp [List.filter_cons, hmem, lookupV, hp, ih]

theorem lookupV_filter_eq_none (l : List (String × Value))
    (pred : (String × Value) → Bool) (k : String) (h : lookupV l k = none) :
    lookupV (l.filter pred) k = none := by
  rw [lookupV_eq_none_iff] at h ⊢
  intro p hp
  exact h p (List.mem_of_mem_filter hp)

theorem filterContent_get_of_mem (fields : List String) (content : Dict)
    (k : String) (hk : k ∈ fields) :
    (filterContent fields content).get k = content.get k :=
  lookupV_filter_of_mem content.entries fields k hk

theorem filterContent_get_none (fields : List String) (content : Dict)
    (k : String) (h : content.get k = none) :
    (filterContent fields content).get k = none :=
  lookupV_filter_eq_none content.entries _ k h

theorem filterContent_keys_nodup (fields : List String) (content : Dict)
    (h : content.keys.Nodup) : (filterContent fields content).keys.Nodup :=
  ((content.entries.filter_sublist).map Prod.fst).nodup h

theorem filterContent_idem (fields : List String) (c : Dict) :
    filterContent fields (filterContent fields c) = filterContent fields c := by
  unfold filterContent
  congr 1
  show List.filter (fun p => decide (p.1 ∈ fields))
      (List.filter (fun p => decide (p.1 ∈ fields)) c.entries)
    = List.filter (fun p => decide (p.1 ∈ fields)) c.entries
  rw [List.filter_filter]
  simp

/-! ### Facts about `_convert_to_time` -/

theorem coerceStep_cases (acc : Dict) (p : String × FieldType) :
    coerceStep acc p = acc ∨
      ∃ w, (acc.get p.1).isSome = true ∧ coerceStep acc p = acc.insert p.1 w := by
  rcases p with ⟨a, ft⟩
  cases ft with
  | plain => exact Or.inl rfl
  | time t =>
    unfold coerceStep
    cases hget : acc.get a with
    | none => exact Or.inl rfl
    | some v =>
      cases v with
      | vNull => exact Or.inl rfl
      | vBool b => exact Or.inr ⟨_, rfl, rfl⟩
      | vStr s => exact Or.inr ⟨_, rfl, rfl⟩
      | vInt n => exact Or.inr ⟨_, rfl, rfl⟩
      | vTime tt a0 => exact Or.inr ⟨_, rfl, rfl⟩

theorem coerceStep_get_of_ne (acc : Dict) (p : String × FieldType) (k : String)
    (h : p.1 ≠ k) : (coerceStep acc p).get k = acc.get k := by
  rcases coerceStep_cases acc p with h1 | ⟨w, hsome, h1⟩ <;> rw [h1]
  have hk : ¬ k = p.1 := fun he => h he.symm
  rw [Dict.get_insert, if_neg hk]

theorem coerceStep_keys (acc : Dict) (p : String × FieldType) :
    (coerceStep acc p).keys = acc.keys := by
  rcases coerceStep_cases acc p with h1 | ⟨w, hsome, h1⟩ <;> rw [h1]
  exact Dict.keys_insert_of_hasKey acc p.1 w hsome

theorem keys_foldl_coerce (l : List (String × FieldType)) (acc : Dict) :
    (l.foldl coerceStep acc).keys = acc.keys := by
  induction l generalizing acc with
  | nil => rfl
  | cons p rest ih => rw [List.foldl_cons, ih, coerceStep_keys]

theorem convertToTime_keys (schema : Schema) (s : Dict) :
    (convertToTime schema s).keys = s.keys :=
  keys_foldl_coerce schema.fieldHints s

theorem convertToTime_get_none (schema : Schema) (s : Dict) (k : String)
    (h : s.get k = none) : (convertToTime schema s).get k = none := by
  rw [Dict.get_eq_none_iff] at h ⊢
  rw [convertToTime_keys]
  exact h

theorem coerceStep_get_null (acc : Dict) (p : String × FieldType) (k : String)
    (h : acc.get k = some Value.vNull) :
    (coerceStep acc p).get k = some Value.vNull := by
  rcases p with ⟨a, ft⟩
  by_cases hp : a = k
  · subst hp
    cases ft with
    | plain => exact h
    | time t => simp [coerceStep, h]
  · rw [coerceStep_get_of_ne acc (a, ft) k hp]
    exact h

theorem foldl_coerce_get_null (l : List (String × FieldType)) (acc : Dict)
    (k : String) (h : acc.get k = some Value.vNull) :
    (l.foldl coerceStep acc).get k = some Value.vNull := by
  induction l generalizing acc with
  | nil => exact h
  | cons p rest ih =>
    rw [List.foldl_cons]
    exact ih (coerceStep acc p) (coerceStep_get_null acc p k h)

theorem foldl_coerce_get_of_forall_ne (l : List (String × FieldType)) (acc : Dict)
    (k : String) (h : ∀ p ∈ l, p.1 ≠ k) :
    (l.foldl coerceStep acc).get k = acc.get k := by
  induction l generalizing acc with
  | nil => rfl
  | cons p rest ih =>
    rw [List.foldl_cons, ih _ (fun q hq => h q (List.mem_cons_of_mem p hq))]
    exact coerceStep_get_of_ne acc p k (h p (List.mem_cons_self p rest))

theorem coerceStep_get_of_no_time (acc : Dict) (p : String × FieldType) (k : String)
    (h : ∀ t, p ≠ (k, FieldType.time t)) :
    (coerceStep acc p).get k = acc.get k := by
  rcases p with ⟨a, ft⟩
  cases ft with
  | plain => rfl
  | time t =>
    have ha : a ≠ k := fun he => h t (by rw [he])
    exact coerceStep_get_of_ne acc (a, FieldType.time t) k ha

theorem foldl_coerce_get_of_no_time (l : List (String × FieldType)) (acc : Dict)
    (k : String) (h : ∀ p ∈ l, ∀ t, p ≠ (k, FieldType.time t)) :
    (l.foldl coerceStep acc).get k = acc.get k := by
  induction l generalizing acc with
  | nil => rfl
  | cons p rest ih =>
    rw [List.foldl_cons, ih _ (fun q hq => h q (List.mem_cons_of_mem p hq))]
    exact coerceStep_get_of_no_time acc p k (h p (List.mem_cons_self p rest))

theorem foldl_coerce_get_time (l : List (String × FieldType)) (acc : Dict)
    (k : String) (t : TimeType) (v : Value) (hnd : (l.map Prod.fst).Nodup)
    (hmem : (k, FieldType.time t) ∈ l) (hv : acc.get k = some v)
    (hvn : v ≠ Value.vNull) :
    (l.foldl coerceStep acc).get k = some (Value.vTime t v) := by
  induction l generalizing acc with
  | nil => cases hmem
  | cons p rest ih =>
    simp only [List.map_cons, List.nodup_cons] at hnd
    by_cases hp : p.1 = k
    · have hpe : p = (k, FieldType.time t) := by
        rcases List.mem_cons.mp hmem with h1 | h1
        · exact h1.symm
        · exact absurd (List.mem_map_of_mem Prod.fst h1) (hp ▸ hnd.1)
      subst hpe
      have hstep : coerceStep acc (k, FieldType.time t)
          = acc.insert k (Value.vTime t v) := by
        cases v with
        | vNull => exact absurd rfl hvn
        | vBool b => simp [coerceStep, hv]
        | vStr s => simp [coerceStep, hv]
        | vInt n => simp [coerceStep, hv]
        | vTime tt a0 => simp [coerceStep, hv]
      rw [List.foldl_cons, hstep]
      have hk1 : k ∉ rest.map Prod.fst := by simpa using hnd.1
      have hrest : ∀ q ∈ rest, q.1 ≠ k := by
        intro q hq he
        apply hk1
        rw [← he]
        exact List.mem_map_of_mem Prod.fst hq
      rw [foldl_coerce_get_of_forall_ne rest _ k hrest, Dict.get_insert]
      simp
    · have h1 : (k, FieldType.time t) ∈ rest := by
        rcases List.mem_cons.mp hmem with h2 | h2
        · exact absurd (congrArg Prod.fst h2).symm hp
        · exact h2
      rw [List.foldl_cons]
      exact ih _ hnd.2 h1 ((coerceStep_get_of_ne acc p k hp).trans hv)

theorem keys_nodup_mem_unique (l : List (String × FieldType))
    (hnd : (l.map Prod.fst).Nodup) (k : String) (a b : FieldType)
    (ha : (k, a) ∈ l) (hb : (k, b) ∈ l) : a = b := by
  induction l with
  | nil => cases ha
  | cons p rest ih =>
    simp only [List.map_cons, List.nodup_cons] at hnd
    rcases List.mem_cons.mp ha with h1 | h1 <;> rcases List.mem_cons.mp hb with h2 | h2
    · exact congrArg Prod.snd (h1.trans h2.symm)
    · exact absurd (List.mem_map_of_mem Prod.fst h2)
        ((congrArg Prod.fst h1).symm ▸ hnd.1)
    · exact absurd (List.mem_map_of_mem Prod.fst h1)
        ((congrArg Prod.fst h2).symm ▸ hnd.1)
    · exact ih hnd.2 h1 h2

theorem fieldTypeOf_mem (s : Schema) (k : String) (ft : FieldType)
    (h : fieldTypeOf s k = some ft) : (k, ft) ∈ s.fieldHints := by
  unfold fieldTypeOf at h
  cases hf : s.fieldHints.find? (fun q => decide (q.1 = k)) with
  | none => rw [hf] at h; cases h
  | some q =>
    rw [hf] at h
    have hk0 := List.find?_some hf
    simp only [decide_eq_true_eq] at hk0
    have hk : q.1 = k := hk0
    have hmem := List.mem_of_find?_eq_some hf
    have hft : q.2 = ft := Option.some_injective _ h
    rcases q with ⟨a, b⟩
    dsimp at hk hft
    rw [← hk, ← hft]
    exact hmem

theorem convertToTime_get (schema : Schema) (s : Dict) (k : String)
    (ft : FieldType) (v : Value)
    (hnd : (schema.fieldHints.map Prod.fst).Nodup)
    (hft : fieldTypeOf schema k = some ft) (hv : s.get k = some v) :
    (convertToTime schema s).get k = some (coerceValue ft v) := by
  have hmem := fieldTypeOf_mem schema k ft hft
  cases ft with
  | plain =>
    have hno : ∀ p ∈ schema.fieldHints, ∀ t, p ≠ (k, FieldType.time t) := by
      intro p hp t he
      subst he
      exact FieldType.noConfusion
        (keys_nodup_mem_unique _ hnd k _ _ hmem hp)
    unfold convertToTime
    rw [foldl_coerce_get_of_no_time _ _ _ hno, hv]
    rfl
  | time t =>
    by_cases hvn : v = Value.vNull
    · subst hvn
      unfold convertToTime
      rw [foldl_coerce_get_null _ _ _ hv]
      rfl
    · unfold convertToTime
      rw [foldl_coerce_get_time _ _ _ t v hnd hmem hv hvn]
      simp [coerceValue, hvn]

/-! ### Facts about the per-file merge (lines 75-90) -/

theorem mergeFiles_total (fields : List String) (fs : List Dict) :
    ∀ acc w, ∃ m w2,
      mergeFiles fields (fs.map some) acc w = (Except.ok m, w2) := by
  induction fs with
  | nil => exact fun acc w => ⟨acc, w, rfl⟩
  | cons d rest ih =>
    intro acc w
    simp only [List.map_cons, mergeFiles]
    exact ih _ _

theorem mergeFiles_append_ok (fields : List String) (l1 : List (Option Dict)) :
    ∀ l2 acc w m w2, mergeFiles fields l1 acc w = (Except.ok m, w2) →
      mergeFiles fields (l1 ++ l2) acc w = mergeFiles fields l2 m w2 := by
  induction l1 with
  | nil =>
    intro l2 acc w m w2 h
    simp only [mergeFiles] at h
    injection h with h1 h2
    injection h1 with h1
    subst h1
    subst h2
    rfl
  | cons o rest ih =>
    intro l2 acc w m w2 h
    cases o with
    | none =>
      simp only [mergeFiles] at h
      injection h with h1 h2
      exact Except.noConfusion h1
    | some c =>
      simp only [mergeFiles] at h
      simp only [List.cons_append, mergeFiles]
      exact ih _ _ _ _ _ h

theorem mergeFiles_get_none (fields : List String) (fs : List (Option Dict))
    (k : String) :
    ∀ acc w m w2, (∀ c : Dict, some c ∈ fs → c.get k = none) →
      acc.get k = none →
      mergeFiles fields fs acc w = (Except.ok m, w2) → m.get k = none := by
  induction fs with
  | nil =>
    intro acc w m w2 _ hacc h
    simp only [mergeFiles] at h
    injection h with h1 h2
    injection h1 with h1
    subst h1
    exact hacc
  | cons o rest ih =>
    intro acc w m w2 hfs hacc h
    cases o with
    | none =>
      simp only [mergeFiles] at h
      injection h with h1 h2
      exact Except.noConfusion h1
    | some c =>
      simp only [mergeFiles] at h
      refine ih _ _ _ _ (fun c2 hc2 => hfs c2 (List.mem_cons_of_mem _ hc2)) ?_ h
      have hc : (filterContent fields c).get k = none :=
        filterContent_get_none _ _ _ (hfs c (List.mem_cons_self _ _))
      rw [Dict.get_update_of_forall_ne]
      · exact hacc
      · exact fun p hp => (lookupV_eq_none_iff _ k).mp hc p hp

/-! ### Facts about the override step (line 92) -/

theorem lookupV_filter_nonNull (l : List (String × Value)) (k : String) (v : Value)
    (h : lookupV l k = some v) (hv : v ≠ Value.vNull) :
    lookupV (l.filter (fun p => decide (p.2 ≠ Value.vNull))) k = some v := by
  induction l with
  | nil => simp [lookupV] at h
  | cons p rest ih =>
    by_cases hp : p.1 = k
    · rw [lookupV, if_pos hp] at h
      have hpv : p.2 = v := Option.some_injective _ h
      have hkeep : decide (p.2 ≠ Value.vNull) = true := decide_eq_true (hpv ▸ hv)
      rw [List.filter_cons, if_pos hkeep]
      simp only [lookupV]
      rw [if_pos hp, hpv]
    · rw [lookupV, if_neg hp] at h
      rw [List.filter_cons]
      by_cases hkeep : p.2 ≠ Value.vNull
      · rw [if_pos (decide_eq_true hkeep)]
        simp only [lookupV]
        rw [if_neg hp]
        exact ih h
      · rw [if_neg (by simp only [decide_eq_true_eq]; exact hkeep)]
        exact ih h

theorem nonNullParams_get (params : Dict) (k : String) (v : Value)
    (h : params.get k = some v) (hv : v ≠ Value.vNull) :
    (nonNullParams params).get k = some v :=
  lookupV_filter_nonNull params.entries k v h hv

theorem nonNullParams_keys_nodup (params : Dict) (h : params.keys.Nodup) :
    (nonNullParams params).keys.Nodup :=
  ((params.entries.filter_sublist).map Prod.fst).nodup h

theorem nonNullParams_no_key (params : Dict) (k : String)
    (h : ∀ v, (k, v) ∈ params.entries → v = Value.vNull) :
    ∀ p ∈ (nonNullParams params).entries, p.1 ≠ k := by
  intro p hp he
  rcases p with ⟨a, b⟩
  dsimp at he
  subst he
  have hpred := List.of_mem_filter hp
  have hb : b = Value.vNull := h b (List.mem_of_mem_filter hp)
  exact (of_decide_eq_true hpred) hb

/-! ### Characterization of the outcome of `load` -/

theorem all_keys_pred (l : List (String × Value)) (q : String → Bool) :
    l.all (fun p => q p.1) = (l.map Prod.fst).all q := by
  induction l with
  | nil => rfl
  | cons p rest ih => simp [List.all_cons, ih]

theorem constructOk_convertToTime (fields : List String) (schema : Schema)
    (s : Dict) :
    constructOk fields (convertToTime schema s) = constructOk fields s := by
  have hkeys : (convertToTime schema s).keys = s.keys := convertToTime_keys schema s
  have hhk : ∀ f, (convertToTime schema s).hasKey f = s.hasKey f := by
    intro f
    cases hg : s.get f with
    | none =>
      rw [Dict.hasKey, convertToTime_get_none schema s f hg, Dict.hasKey, hg]
    | some v =>
      have h1 : f ∈ s.keys := by
        rw [← Dict.hasKey_iff_mem_keys, Dict.hasKey, hg]
        rfl
      have h2 : f ∈ (convertToTime schema s).keys := by rw [hkeys]; exact h1
      have h3 := (Dict.hasKey_iff_mem_keys _ f).mpr h2
      rw [h3, Dict.hasKey, hg]
      rfl
  unfold constructOk
  congr 1
  · induction fields with
    | nil => rfl
    | cons f rest ih => simp [List.all_cons, hhk, ih]
  · rw [all_keys_pred _ (fun a => decide (a ∈ fields)),
      all_keys_pred _ (fun a => decide (a ∈ fields))]
    rw [show (convertToTime schema s).entries.map Prod.fst = s.entries.map Prod.fst
      from hkeys]

theorem load_ok_elim (schema : Schema) (files : List (Option Dict)) (params : Dict)
    (inst : Dict) (h : (load schema files params).1 = Except.ok inst) :
    schema.isDataclass = true ∧
      ∃ m w, mergedOf schema files params = (Except.ok m, w) ∧
        inst = convertToTime schema m ∧
        constructOk schema.fieldNames (convertToTime schema m) = true := by
  unfold load at h
  by_cases hdc : schema.isDataclass = true
  · rw [if_pos hdc] at h
    refine ⟨hdc, ?_⟩
    split at h
    · simp at h
    · rename_i m2 w2 heq
      split at h
      · rename_i hco
        exact ⟨m2, w2, heq, (Except.ok.inj h).symm, hco⟩
      · rename_i hco
        exact Except.noConfusion h
  · rw [if_neg hdc] at h
    simp at h

theorem load_ok_intro (schema : Schema) (files : List (Option Dict)) (params : Dict)
    (m : Dict) (w : Nat) (hdc : schema.isDataclass = true)
    (hmo : mergedOf schema files params = (Except.ok m, w))
    (hco : constructOk schema.fieldNames (convertToTime schema m) = true) :
    (load schema files params).1 = Except.ok (convertToTime schema m) := by
  unfold load
  rw [if_pos hdc, hmo]
  show (if constructOk schema.fieldNames (convertToTime schema m) = true then
      (Except.ok (convertToTime schema m), w)
    else (Except.error LoadError.missingParam, w)).1
    = Except.ok (convertToTime schema m)
  rw [if_pos hco]

theorem load_missingParam_intro (schema : Schema) (files : List (Option Dict))
    (params : Dict) (m : Dict) (w : Nat) (hdc : schema.isDataclass = true)
    (hmo : mergedOf schema files params = (Except.ok m, w))
    (hco : constructOk schema.fieldNames (convertToTime schema m) = false) :
    (load schema files params).1 = Except.error LoadError.missingParam := by
  unfold load
  rw [if_pos hdc, hmo]
  show (if constructOk schema.fieldNames (convertToTime schema m) = true then
      (Except.ok (convertToTime schema m), w)
    else (Except.error LoadError.missingParam, w)).1
    = Except.error LoadError.missingParam
  rw [if_neg (by rw [hco]; exact Bool.false_ne_true)]

theorem mergedOf_ok_elim (schema : Schema) (files : List (Option Dict))
    (params : Dict) (m : Dict) (w : Nat)
    (h : mergedOf schema files params = (Except.ok m, w)) :
    ∃ m0, mergeFiles schema.fieldNames files ⟨[]⟩ 0 = (Except.ok m0, w) ∧
      m = m0.update (nonNullParams params) := by
  unfold mergedOf at h
  split at h
  · rename_i e w0 heq
    injection h with h1 h2
    exact Except.noConfusion h1
  · rename_i m0 w0 heq
    injection h with h1 h2
    subst h2
    exact ⟨m0, heq, (Except.ok.inj h1).symm⟩

theorem mergedOf_intro (schema : Schema) (files : List (Option Dict))
    (params : Dict) (m0 : Dict) (w : Nat)
    (hmf : mergeFiles schema.fieldNames files ⟨[]⟩ 0 = (Except.ok m0, w)) :
    mergedOf schema files params
      = (Except.ok (m0.update (nonNullParams params)), w) := by
  unfold mergedOf
  rw [hmf]

theorem lookupV_of_mem_nodup (l : List (String × Value)) (k : String) (v : Value)
    (hnd : (l.map Prod.fst).Nodup) (hmem : (k, v) ∈ l) :
    lookupV l k = some v := by
  induction l with
  | nil => cases hmem
  | cons p rest ih =>
    simp only [List.map_cons, List.nodup_cons] at hnd
    rcases List.mem_cons.mp hmem with h | h
    · rw [← h]
      simp [lookupV]
    · have hpk : p.1 ≠ k := by
        intro he
        apply hnd.1
        rw [he]
        exact List.mem_map_of_mem Prod.fst h
      rw [lookupV, if_neg hpk]
      exact ih hnd.2 h

theorem no_nonNull_binding (params : Dict) (f : String) (hnd : params.keys.Nodup)
    (h : params.get f = none ∨ params.get f = some Value.vNull) :
    ∀ p ∈ (nonNullParams params).entries, p.1 ≠ f := by
  apply nonNullParams_no_key
  intro v hv
  have hlk : params.get f = some v := lookupV_of_mem_nodup params.entries f v hnd hv
  rcases h with h | h
  · rw [hlk] at h
    cases h
  · rw [hlk] at h
    exact Option.some_injective _ h

theorem mergeFiles_prefiltered (fields : List String) (fs : List (Option Dict)) :
    ∀ acc w,
      mergeFiles fields (fs.map (Option.map (fun d => filterContent fields d))) acc w
        = mergeFiles fields fs acc w := by
  induction fs with
  | nil => intro acc w; rfl
  | cons o rest ih =>
    intro acc w
    cases o with
    | none => simp only [List.map_cons, Option.map_none', mergeFiles]
    | some d =>
      simp only [List.map_cons, Option.map_some', mergeFiles, filterContent_idem]
      exact ih _ _

/-! ### The claims -/

/-- C6: if the class is not a dataclass, `load` raises
`NotDataClassError` before opening or reading any config file: the
outcome is `NotDataClassError` (with no warnings) for every file list,
including lists of files that do not exist or do not parse (modelled by
`none` entries). -/
theorem schema_check_precedes_io (schema : Schema) (files : List (Option Dict))
    (params : Dict) (h : schema.isDataclass = false) :
    load schema files params = (Except.error LoadError.notDataClass, 0) := by
  unfold load
  rw [if_neg (by rw [h]; exact Bool.false_ne_true)]

/-- Witness for C6: a non-dataclass schema fails with
`NotDataClassError` even when the single supplied file cannot be
opened. -/
theorem schema_check_precedes_io_witness :
    badSchema.isDataclass = false ∧
    load badSchema [none] emptyParams = (Except.error LoadError.notDataClass, 0) :=
  ⟨rfl, schema_check_precedes_io badSchema [none] emptyParams rfl⟩

/-- C3: on a dataclass schema, when no (readable) config file and no
non-`None` override supplies the required field `f`, `load` fails with
`MissingParamError`. -/
theorem missing_required_field_error (schema : Schema) (files : List Dict)
    (params : Dict) (f : String)
    (hdc : schema.isDataclass = true)
    (hf : f ∈ schema.fieldNames)
    (hfile : ∀ d ∈ files, d.get f = none)
    (hpnd : params.keys.Nodup)
    (hov : params.get f = none ∨ params.get f = some Value.vNull) :
    (load schema (files.map some) params).1
      = Except.error LoadError.missingParam := by
  obtain ⟨m0, w, hmf⟩ := mergeFiles_total schema.fieldNames files ⟨[]⟩ 0
  have hm0 : m0.get f = none := by
    refine mergeFiles_get_none schema.fieldNames (files.map some) f ⟨[]⟩ 0 m0 w ?_ rfl hmf
    intro c hc
    rw [List.mem_map] at hc
    obtain ⟨d, hd, he⟩ := hc
    rw [← Option.some_injective _ he]
    exact hfile d hd
  have hmo := mergedOf_intro schema (files.map some) params m0 w hmf
  have hm : (m0.update (nonNullParams params)).get f = none := by
    rw [Dict.get_update_of_forall_ne _ _ f (no_nonNull_binding params f hpnd hov)]
    exact hm0
  have hcv : (convertToTime schema (m0.update (nonNullParams params))).get f = none :=
    convertToTime_get_none _ _ _ hm
  have hco : constructOk schema.fieldNames
      (convertToTime schema (m0.update (nonNullParams params))) = false := by
    cases hc : constructOk schema.fieldNames
        (convertToTime schema (m0.update (nonNullParams params))) with
    | false => rfl
    | true =>
      exfalso
      unfold constructOk at hc
      have hall := (Bool.and_eq_true_iff.mp hc).1
      have hkey := List.all_eq_true.mp hall f hf
      rw [Dict.hasKey, hcv] at hkey
      exact Bool.noConfusion hkey
  exact load_missingParam_intro schema (files.map some) params _ w hdc hmo hco

/-- Witness for C3: the spec scenario — no file and no override
supplies `target` — fails with `MissingParamError`. -/
theorem missing_required_field_error_witness :
    PreparationSettings.isDataclass = true ∧
    "target" ∈ PreparationSettings.fieldNames ∧
    (∀ d ∈ [prepFileNoTarget], d.get "target" = none) ∧
    prepOvPaths.keys.Nodup ∧
    (prepOvPaths.get "target" = none ∨ prepOvPaths.get "target" = some Value.vNull) ∧
    (load PreparationSettings ([prepFileNoTarget].map some) prepOvPaths).1
      = Except.error LoadError.missingParam :=
  ⟨rfl, by decide, by decide, by decide, Or.inl rfl,
    missing_required_field_error PreparationSettings [prepFileNoTarget] prepOvPaths
      "target" rfl (by decide) (by decide) (by decide) (Or.inl rfl)⟩

/-- C5: keys of a config file outside the schema's field set neither
make `load` fail nor influence the result.  Unconditionally, for every
schema, file list and overrides: `load` returns exactly the same
outcome and warning count as it does on the files with their
non-schema keys stripped (so a failure can never be caused by such
keys, and their values never reach the result), and whenever `load`
returns an instance, every key of that instance is a schema field. -/
theorem unknown_file_keys_ignored (schema : Schema) (files : List (Option Dict))
    (params : Dict) :
    load schema files params
        = load schema
            (files.map (Option.map (fun d => filterContent schema.fieldNames d)))
            params
      ∧ ∀ inst : Dict, (load schema files params).1 = Except.ok inst →
          ∀ p ∈ inst.entries, p.1 ∈ schema.fieldNames := by
  constructor
  · have hmm : mergedOf schema
        (files.map (Option.map (fun d => filterContent schema.fieldNames d))) params
        = mergedOf schema files params := by
      unfold mergedOf
      rw [mergeFiles_prefiltered]
    unfold load
    rw [hmm]
  · intro inst hok p hp
    obtain ⟨hdc, m, w, hmo, hinst, hco⟩ := load_ok_elim schema files params inst hok
    unfold constructOk at hco
    have hb := (Bool.and_eq_true_iff.mp hco).2
    subst hinst
    exact of_decide_eq_true (List.all_eq_true.mp hb p hp)

/-- Witness for C5: `junkFile` carries the non-schema key `junk`, yet
`load` succeeds, returns the same result as on the pre-filtered file,
and the instance does not hold `junk`. -/
theorem unknown_file_keys_ignored_witness :
    (load PreparationSettings [some junkFile] emptyParams
        = load PreparationSettings
            ([some junkFile].map
              (Option.map (fun d => filterContent PreparationSettings.fieldNames d)))
            emptyParams
      ∧ ∀ inst : Dict,
          (load PreparationSettings [some junkFile] emptyParams).1 = Except.ok inst →
          ∀ p ∈ inst.entries, p.1 ∈ PreparationSettings.fieldNames) ∧
    junkFile.hasKey "junk" = true ∧
    "junk" ∉ PreparationSettings.fieldNames ∧
    (load PreparationSettings [some junkFile] emptyParams).1 = Except.ok prepInst ∧
    prepInst.hasKey "junk" = false :=
  ⟨unknown_file_keys_ignored PreparationSettings [some junkFile] emptyParams,
    rfl, by decide, rfl, rfl⟩

/-- C8: a returned Settings Instance is fully populated — it holds a
value for every field its schema declares (a field is missing only if
construction failed, in which case no instance is returned) — and the
repository's concrete settings class `PreparationSettings` is declared
frozen (immutable). -/
theorem settings_instance_invariant (schema : Schema) (files : List (Option Dict))
    (params : Dict) (inst : Dict)
    (hok : (load schema files params).1 = Except.ok inst) :
    PreparationSettings.frozen = true ∧
      ∀ f ∈ schema.fieldNames, inst.hasKey f = true := by
  obtain ⟨hdc, m, w, hmo, hinst, hco⟩ := load_ok_elim schema files params inst hok
  refine ⟨rfl, ?_⟩
  intro f hf
  unfold constructOk at hco
  have hall := (Bool.and_eq_true_iff.mp hco).1
  have := List.all_eq_true.mp hall f hf
  subst hinst
  exact this

/-- Witness for C8: the instance loaded from `prepFullFile` with
`prepOv` holds every `PreparationSettings` field. -/
theorem settings_instance_invariant_witness :
    (load PreparationSettings [some prepFullFile] prepOv).1 = Except.ok prepInst ∧
    (PreparationSettings.frozen = true ∧
      ∀ f ∈ PreparationSettings.fieldNames, prepInst.hasKey f = true) :=
  ⟨rfl, settings_instance_invariant PreparationSettings [some prepFullFile] prepOv
    prepInst rfl⟩

/-- Counterexample to C1 as stated: `start` is declared as a
`Timestamp` field, receives a value from `fileA` and a non-null
override from `ovStart`, `load` succeeds, yet the instance's `start` is
the `Timestamp` constructor applied to the override string — not the
override value itself (line 94 of `settings.py` runs the time coercion
after the overrides of line 92). -/
theorem override_on_time_field_not_literal :
    loadField tsSchema [some fileA] ovStart "start"
        = some (some (Value.vTime TimeType.timestamp (Value.vStr "2024-01-01"))) ∧
    fileA.get "start" = some (Value.vStr "1999-01-01") ∧
    ovStart.get "start" = some (Value.vStr "2024-01-01") ∧
    some (some (Value.vTime TimeType.timestamp (Value.vStr "2024-01-01")))
        ≠ some (some (Value.vStr "2024-01-01")) :=
  ⟨rfl, rfl, rfl, by decide⟩

/-- C1 (amended): for every schema field with a non-null override
value, for every list of config files (hence for every ordering of
them), the returned instance holds the override value with the field's
declared coercion applied: exactly the override value for a non-time
field, the declared time constructor applied to it for a time-like
field. -/
theorem override_precedence (schema : Schema) (files : List (Option Dict))
    (params : Dict) (f : String) (v : Value) (ft : FieldType) (inst : Dict)
    (hnd : (schema.fieldHints.map Prod.fst).Nodup)
    (hpnd : params.keys.Nodup)
    (hov : params.get f = some v) (hvn : v ≠ Value.vNull)
    (hft : fieldTypeOf schema f = some ft)
    (hok : (load schema files params).1 = Except.ok inst) :
    inst.get f = some (coerceValue ft v) := by
  obtain ⟨hdc, m, w, hmo, hinst, hco⟩ := load_ok_elim schema files params inst hok
  obtain ⟨m0, hmf, hm⟩ := mergedOf_ok_elim schema files params m w hmo
  subst hinst
  subst hm
  apply convertToTime_get schema _ f ft v hnd hft
  exact Dict.get_update_of_nodup m0 (nonNullParams params) f v
    (nonNullParams_keys_nodup params hpnd) (nonNullParams_get params f v hov hvn)

/-- Witness for C1 (amended): overriding the plain field `target` with
`"quality"` yields an instance whose `target` is exactly `"quality"`. -/
theorem override_precedence_witness :
    (PreparationSettings.fieldHints.map Prod.fst).Nodup ∧
    prepOv.keys.Nodup ∧
    prepOv.get "target" = some (Value.vStr "quality") ∧
    Value.vStr "quality" ≠ Value.vNull ∧
    fieldTypeOf PreparationSettings "target" = some FieldType.plain ∧
    (load PreparationSettings [some prepFullFile] prepOv).1 = Except.ok prepInst ∧
    prepInst.get "target" = some (coerceValue FieldType.plain (Value.vStr "quality")) :=
  ⟨by decide, by decide, rfl, by decide, rfl, rfl,
    override_precedence PreparationSettings [some prepFullFile] prepOv "target"
      (Value.vStr "quality") FieldType.plain prepInst (by decide) (by decide) rfl
      (by decide) rfl rfl⟩

/-- Counterexample to C2 as stated: two files both define the
`Timestamp` field `start` with different values and there is no
override for it; the instance's `start` derives from the later file but
equals the `Timestamp` constructor applied to that value, not the later
file's value itself. -/
theorem last_file_value_coerced :
    loadField tsSchema [some fileA, some fileB] emptyParams "start"
        = some (some (Value.vTime TimeType.timestamp (Value.vStr "2000-06-30"))) ∧
    fileA.get "start" = some (Value.vStr "1999-01-01") ∧
    fileB.get "start" = some (Value.vStr "2000-06-30") ∧
    Value.vStr "1999-01-01" ≠ Value.vStr "2000-06-30" ∧
    some (some (Value.vTime TimeType.timestamp (Value.vStr "2000-06-30")))
        ≠ some (some (Value.vStr "2000-06-30")) :=
  ⟨rfl, rfl, rfl, by decide, by decide⟩

/-- C2 (amended): when two files both define schema field `f` with
different values and no override supplies `f`, the instance holds the
later file's value with the field's declared coercion applied: exactly
that value for a non-time field, the declared time constructor applied
to it for a time-like field. -/
theorem last_write_wins_across_files (schema : Schema) (d1 d2 : Dict)
    (params : Dict) (f : String) (v1 v2 : Value) (ft : FieldType) (inst : Dict)
    (hnd : (schema.fieldHints.map Prod.fst).Nodup)
    (h1 : d1.get f = some v1) (h2 : d2.get f = some v2) (hne : v1 ≠ v2)
    (hd2 : d2.keys.Nodup)
    (hft : fieldTypeOf schema f = some ft)
    (hpnd : params.keys.Nodup)
    (hnov : params.get f = none ∨ params.get f = some Value.vNull)
    (hok : (load schema [some d1, some d2] params).1 = Except.ok inst) :
    inst.get f = some (coerceValue ft v2) := by
  obtain ⟨hdc, m, w, hmo, hinst, hco⟩ :=
    load_ok_elim schema [some d1, some d2] params inst hok
  obtain ⟨m0, hmf, hm⟩ := mergedOf_ok_elim schema [some d1, some d2] params m w hmo
  have hf2 : f ∈ schema.fieldNames :=
    List.mem_map_of_mem Prod.fst (fieldTypeOf_mem schema f ft hft)
  have hc2 : (filterContent schema.fieldNames d2).get f = some v2 := by
    rw [filterContent_get_of_mem _ _ _ hf2]
    exact h2
  have hm0 : m0.get f = some v2 := by
    simp only [mergeFiles] at hmf
    injection hmf with ha hb
    rw [← Except.ok.inj ha]
    exact Dict.get_update_of_nodup _ _ f v2 (filterContent_keys_nodup _ _ hd2) hc2
  subst hinst
  subst hm
  apply convertToTime_get schema _ f ft v2 hnd hft
  rw [Dict.get_update_of_forall_ne _ _ f (no_nonNull_binding params f hpnd hnov)]
  exact hm0

/-- Witness for C2 (amended): two full files disagreeing on the plain
field `target` — the later file's value `"t2"` wins exactly. -/
theorem last_write_wins_across_files_witness :
    (PreparationSettings.fieldHints.map Prod.fst).Nodup ∧
    prepFullFile.get "target" = some (Value.vStr "t0") ∧
    prepFullFile2.get "target" = some (Value.vStr "t2") ∧
    Value.vStr "t0" ≠ Value.vStr "t2" ∧
    prepFullFile2.keys.Nodup ∧
    fieldTypeOf PreparationSettings "target" = some FieldType.plain ∧
    emptyParams.keys.Nodup ∧
    (emptyParams.get "target" = none ∨ emptyParams.get "target" = some Value.vNull) ∧
    (load PreparationSettings [some prepFullFile, some prepFullFile2] emptyParams).1
        = Except.ok prepInst2 ∧
    prepInst2.get "target" = some (coerceValue FieldType.plain (Value.vStr "t2")) :=
  ⟨by decide, rfl, rfl, by decide, by decide, rfl, by decide, Or.inl rfl, rfl,
    last_write_wins_across_files PreparationSettings prepFullFile prepFullFile2
      emptyParams "target" (Value.vStr "t0") (Value.vStr "t2") FieldType.plain
      prepInst2 (by decide) rfl rfl (by decide) (by decide) rfl (by decide)
      (Or.inl rfl) rfl⟩

/-- C4: a field declared with a time-like type that, after merging
files and overrides, holds a non-null value `v`, ends up in the
returned instance as the declared constructor applied to `v`; a field
absent from the merged mapping stays absent from the instance. -/
theorem time_coercion_load (schema : Schema) (files : List (Option Dict))
    (params : Dict) (f : String) (t : TimeType) (v : Value)
    (m : Dict) (w : Nat) (inst : Dict)
    (hnd : (schema.fieldHints.map Prod.fst).Nodup)
    (hft : fieldTypeOf schema f = some (FieldType.time t))
    (hmo : mergedOf schema files params = (Except.ok m, w))
    (hok : (load schema files params).1 = Except.ok inst) :
    (m.get f = some v → v ≠ Value.vNull → inst.get f = some (Value.vTime t v)) ∧
    (m.get f = none → inst.get f = none) := by
  obtain ⟨hdc, m2, w2, hmo2, hinst, hco⟩ := load_ok_elim schema files params inst hok
  rw [hmo] at hmo2
  injection hmo2 with ha hb
  have hme : m = m2 := Except.ok.inj ha
  subst hme
  subst hinst
  constructor
  · intro hv hvn
    have hg := convertToTime_get schema m f (FieldType.time t) v hnd hft hv
    rw [hg]
    simp [coerceValue, hvn]
  · intro hnone
    exact convertToTime_get_none schema m f hnone

/-- Witness for C4: the string `"1999-01-01"` supplied by `fileA` for
the `Timestamp` field `start` is wrapped by the `Timestamp`
constructor in the loaded instance. -/
theorem time_coercion_load_witness :
    (tsSchema.fieldHints.map Prod.fst).Nodup ∧
    fieldTypeOf tsSchema "start" = some (FieldType.time TimeType.timestamp) ∧
    mergedOf tsSchema [some fileA] emptyParams = (Except.ok mergedA, 0) ∧
    (load tsSchema [some fileA] emptyParams).1 = Except.ok instA ∧
    ((mergedA.get "start" = some (Value.vStr "1999-01-01") →
        Value.vStr "1999-01-01" ≠ Value.vNull →
        instA.get "start"
          = some (Value.vTime TimeType.timestamp (Value.vStr "1999-01-01"))) ∧
      (mergedA.get "start" = none → instA.get "start" = none)) :=
  ⟨by decide, rfl, rfl, rfl,
    time_coercion_load tsSchema [some fileA] emptyParams "start" TimeType.timestamp
      (Value.vStr "1999-01-01") mergedA 0 instA (by decide) rfl rfl rfl⟩

/-- C7: when a later file defines a schema field the accumulator
already holds, the merge emits exactly one non-fatal warning and
overwrites the value with the later file's; and merging any list of
readable files always succeeds — duplicate keys never make the merge
(and hence `load`) fail. -/
theorem duplicate_key_warning_last_write_wins (fields : List String) (d1 d2 : Dict)
    (f : String) (v2 : Value)
    (hf : f ∈ fields)
    (h1 : d1.hasKey f = true)
    (h2 : d2.get f = some v2)
    (hd2 : d2.keys.Nodup) :
    (∃ m, mergeFiles fields [some d1, some d2] ⟨[]⟩ 0 = (Except.ok m, 1) ∧
        m.get f = some v2) ∧
    ∀ fs : List Dict, ∃ m w,
      mergeFiles fields (fs.map some) ⟨[]⟩ 0 = (Except.ok m, w) := by
  constructor
  · have hc1k : (filterContent fields d1).hasKey f = true := by
      rw [Dict.hasKey, filterContent_get_of_mem _ _ _ hf]
      exact h1
    have hacc1 : (Dict.update ⟨[]⟩ (filterContent fields d1)).hasKey f = true := by
      rw [Dict.hasKey_update, hc1k, Bool.or_true]
    obtain ⟨v0, hv0⟩ := (lookupV_isSome_iff _ f).mp hacc1
    have hc2k : (filterContent fields d2).hasKey f = true := by
      rw [Dict.hasKey, filterContent_get_of_mem _ _ _ hf, h2]
      rfl
    have hcond1 : (((⟨[]⟩ : Dict).entries).any
        (fun p => (filterContent fields d1).hasKey p.1)) = false := rfl
    have hany : ((Dict.update ⟨[]⟩ (filterContent fields d1)).entries.any
        (fun p => (filterContent fields d2).hasKey p.1)) = true := by
      rw [List.any_eq_true]
      exact ⟨(f, v0), hv0, hc2k⟩
    refine ⟨Dict.update (Dict.update ⟨[]⟩ (filterContent fields d1))
        (filterContent fields d2), ?_, ?_⟩
    · simp only [mergeFiles]
      rw [hcond1, hany]
      simp
    · exact Dict.get_update_of_nodup _ _ f v2 (filterContent_keys_nodup _ _ hd2)
        (by rw [filterContent_get_of_mem _ _ _ hf]; exact h2)
  · intro fs
    exact mergeFiles_total fields fs ⟨[]⟩ 0

/-- Witness for C7: the spec scenario — two files both set `test_size`
(`"0.2"` then `"0.3"`) — merges with exactly one warning and keeps
`"0.3"`. -/
theorem duplicate_key_warning_witness :
    "test_size" ∈ PreparationSettings.fieldNames ∧
    dupFile1.hasKey "test_size" = true ∧
    dupFile2.get "test_size" = some (Value.vStr "0.3") ∧
    dupFile2.keys.Nodup ∧
    ((∃ m, mergeFiles PreparationSettings.fieldNames [some dupFile1, some dupFile2]
          ⟨[]⟩ 0 = (Except.ok m, 1) ∧ m.get "test_size" = some (Value.vStr "0.3")) ∧
      ∀ fs : List Dict, ∃ m w,
        mergeFiles PreparationSettings.fieldNames (fs.map some) ⟨[]⟩ 0
          = (Except.ok m, w)) :=
  ⟨by decide, rfl, rfl, by decide,
    duplicate_key_warning_last_write_wins PreparationSettings.fieldNames dupFile1
      dupFile2 "test_size" (Value.vStr "0.3") (by decide) rfl rfl (by decide)⟩

/-- C9: an override parameter whose name is not a schema field and
whose value is non-null is inserted unfiltered into the merged mapping
(unlike unknown file keys, which are discarded); construction then
fails and `load` raises `MissingParamError`. -/
theorem unknown_override_key_missing_param (schema : Schema) (files : List Dict)
    (params : Dict) (k : String) (v : Value)
    (hdc : schema.isDataclass = true)
    (hpnd : params.keys.Nodup)
    (hk : params.get k = some v) (hv : v ≠ Value.vNull)
    (hnf : k ∉ schema.fieldNames) :
    (∃ m w, mergedOf schema (files.map some) params = (Except.ok m, w) ∧
        m.hasKey k = true) ∧
    (load schema (files.map some) params).1 = Except.error LoadError.missingParam := by
  obtain ⟨m0, w, hmf⟩ := mergeFiles_total schema.fieldNames files ⟨[]⟩ 0
  have hmo := mergedOf_intro schema (files.map some) params m0 w hmf
  have hmk : (m0.update (nonNullParams params)).get k = some v :=
    Dict.get_update_of_nodup _ _ _ _ (nonNullParams_keys_nodup params hpnd)
      (nonNullParams_get params k v hk hv)
  have hhk : (m0.update (nonNullParams params)).hasKey k = true := by
    rw [Dict.hasKey, hmk]
    rfl
  refine ⟨⟨_, w, hmo, hhk⟩, ?_⟩
  have hhk2 : (convertToTime schema (m0.update (nonNullParams params))).hasKey k
      = true := by
    rw [Dict.hasKey_iff_mem_keys, convertToTime_keys]
    exact (Dict.hasKey_iff_mem_keys _ k).mp hhk
  obtain ⟨v0, hv0⟩ := (lookupV_isSome_iff _ k).mp hhk2
  have hco : constructOk schema.fieldNames
      (convertToTime schema (m0.update (nonNullParams params))) = false := by
    cases hc : constructOk schema.fieldNames
        (convertToTime schema (m0.update (nonNullParams params))) with
    | false => rfl
    | true =>
      exfalso
      unfold constructOk at hc
      have hb := (Bool.and_eq_true_iff.mp hc).2
      exact hnf (of_decide_eq_true (List.all_eq_true.mp hb (k, v0) hv0))
  exact load_missingParam_intro schema (files.map some) params _ w hdc hmo hco

/-- Witness for C9: overriding with the unknown key `board_id` puts it
into the merged mapping and makes `load` fail with
`MissingParamError`, although the file supplied every schema field. -/
theorem unknown_override_key_missing_param_witness :
    PreparationSettings.isDataclass = true ∧
    boardOv.keys.Nodup ∧
    boardOv.get "board_id" = some (Value.vStr "b1") ∧
    Value.vStr "b1" ≠ Value.vNull ∧
    "board_id" ∉ PreparationSettings.fieldNames ∧
    ((∃ m w, mergedOf PreparationSettings ([prepFullFile].map some) boardOv
        = (Except.ok m, w) ∧ m.hasKey "board_id" = true) ∧
      (load PreparationSettings ([prepFullFile].map some) boardOv).1
        = Except.error LoadError.missingParam) :=
  ⟨rfl, by decide, rfl, by decide, by decide,
    unknown_override_key_missing_param PreparationSettings [prepFullFile] boardOv
      "board_id" (Value.vStr "b1") rfl (by decide) rfl (by decide) (by decide)⟩

/-- C10: a `None` sourced from a config file is kept: when the last
file maps schema field `f` to null and no later source touches `f`,
the merged mapping holds `None` at `f`, time coercion skips it, and —
provided the merged mapping satisfies the construction contract —
`load` returns an instance whose `f` is `None` rather than raising
`MissingParamError`.  (Only overrides with value `None` are treated as
absent; file-sourced `None`s count as supplied.) -/
theorem file_null_passes_through (schema : Schema) (fs : List Dict) (d : Dict)
    (params : Dict) (f : String) (m : Dict) (w : Nat)
    (hdc : schema.isDataclass = true)
    (hf : f ∈ schema.fieldNames)
    (hd : d.get f = some Value.vNull)
    (hdnd : d.keys.Nodup)
    (hpnd : params.keys.Nodup)
    (hnov : params.get f = none ∨ params.get f = some Value.vNull)
    (hmo : mergedOf schema ((fs ++ [d]).map some) params = (Except.ok m, w)) :
    m.get f = some Value.vNull ∧
      (constructOk schema.fieldNames m = true →
        (load schema ((fs ++ [d]).map some) params).1
            = Except.ok (convertToTime schema m) ∧
          (convertToTime schema m).get f = some Value.vNull) := by
  obtain ⟨m0, hmf, hm⟩ := mergedOf_ok_elim schema _ params m w hmo
  have hsplit : ((fs ++ [d]).map some) = fs.map some ++ [some d] := by
    rw [List.map_append]
    rfl
  obtain ⟨m1, w1, hm1⟩ := mergeFiles_total schema.fieldNames fs ⟨[]⟩ 0
  have happ := mergeFiles_append_ok schema.fieldNames (fs.map some) [some d]
    ⟨[]⟩ 0 m1 w1 hm1
  rw [hsplit, happ] at hmf
  simp only [mergeFiles] at hmf
  injection hmf with ha hb
  have hm0 : m1.update (filterContent schema.fieldNames d) = m0 := Except.ok.inj ha
  have hm0f : m0.get f = some Value.vNull := by
    rw [← hm0]
    exact Dict.get_update_of_nodup _ _ _ _ (filterContent_keys_nodup _ _ hdnd)
      (by rw [filterContent_get_of_mem _ _ _ hf]; exact hd)
  have hmf2 : m.get f = some Value.vNull := by
    rw [hm, Dict.get_update_of_forall_ne _ _ f (no_nonNull_binding params f hpnd hnov)]
    exact hm0f
  refine ⟨hmf2, fun hcon => ?_⟩
  have hcv : (convertToTime schema m).get f = some Value.vNull := by
    unfold convertToTime
    exact foldl_coerce_get_null _ _ _ hmf2
  have hco : constructOk schema.fieldNames (convertToTime schema m) = true := by
    rw [constructOk_convertToTime]
    exact hcon
  exact ⟨load_ok_intro schema _ params m w hdc hmo hco, hcv⟩

/-- Witness for C10: `nullFile` maps the `Timestamp` field `start` to
null; `load` succeeds and the instance holds `None` at `start`, with
no `Timestamp` constructor applied. -/
theorem file_null_passes_through_witness :
    tsSchema.isDataclass = true ∧
    "start" ∈ tsSchema.fieldNames ∧
    nullFile.get "start" = some Value.vNull ∧
    nullFile.keys.Nodup ∧
    emptyParams.keys.Nodup ∧
    (emptyParams.get "start" = none ∨ emptyParams.get "start" = some Value.vNull) ∧
    mergedOf tsSchema (([] ++ [nullFile]).map some) emptyParams
      = (Except.ok mergedNull, 0) ∧
    (mergedNull.get "start" = some Value.vNull ∧
      (constructOk tsSchema.fieldNames mergedNull = true →
        (load tsSchema (([] ++ [nullFile]).map some) emptyParams).1
            = Except.ok (convertToTime tsSchema mergedNull) ∧
          (convertToTime tsSchema mergedNull).get "start" = some Value.vNull)) :=
  ⟨rfl, by decide, rfl, by decide, by decide, Or.inl rfl, rfl,
    file_null_passes_through tsSchema [] nullFile emptyParams "start" mergedNull 0
      rfl (by decide) rfl (by decide) (by decide) (Or.inl rfl) rfl⟩

end Dtmsdg
